import Mathlib

set_option maxRecDepth 1000000
set_option maxHeartbeats 2000000

/-!
Verification of the knowledge-base reconciliation engine
(`kb_manager.py`, `models.py`, `base_sink.py`, `mongo_sink.py`).

The Python source is shallowly embedded: bytes are `Nat` (< 256), machine
words are `Nat` reduced modulo `2 ^ 32`, dictionaries are association
lists with string keys, the storage backend is an in-memory list of
chunks together with an explicit trace of backend calls, and the file
system is a partial map from paths to byte contents.
-/

/-! ## MD5 (as used by `hashlib.md5` in the source)

A faithful executable implementation of the MD5 digest over byte lists.
All 32-bit arithmetic is `Nat` arithmetic reduced modulo `2 ^ 32`.
-/

/-- Reduce a natural number to a 32-bit word. -/
def m32 (n : Nat) : Nat := n % 4294967296

/-- Left-rotation of a 32-bit word `x` by `s` bits (`0 < s < 32`, `x < 2^32`). -/
def rotl32 (x s : Nat) : Nat := m32 (x * 2 ^ s + x / 2 ^ (32 - s))

/-- Bitwise complement of a 32-bit word. -/
def not32 (x : Nat) : Nat := 4294967295 - x

/-- The 64 MD5 sine-derived round constants. -/
def md5K : List Nat :=
  [0xd76aa478, 0xe8c7b756, 0x242070db, 0xc1bdceee,
   0xf57c0faf, 0x4787c62a, 0xa8304613, 0xfd469501,
   0x698098d8, 0x8b44f7af, 0xffff5bb1, 0x895cd7be,
   0x6b901122, 0xfd987193, 0xa679438e, 0x49b40821,
   0xf61e2562, 0xc040b340, 0x265e5a51, 0xe9b6c7aa,
   0xd62f105d, 0x02441453, 0xd8a1e681, 0xe7d3fbc8,
   0x21e1cde6, 0xc33707d6, 0xf4d50d87, 0x455a14ed,
   0xa9e3e905, 0xfcefa3f8, 0x676f02d9, 0x8d2a4c8a,
   0xfffa3942, 0x8771f681, 0x6d9d6122, 0xfde5380c,
   0xa4beea44, 0x4bdecfa9, 0xf6bb4b60, 0xbebfbc70,
   0x289b7ec6, 0xeaa127fa, 0xd4ef3085, 0x04881d05,
   0xd9d4d039, 0xe6db99e5, 0x1fa27cf8, 0xc4ac5665,
   0xf4292244, 0x432aff97, 0xab9423a7, 0xfc93a039,
   0x655b59c3, 0x8f0ccc92, 0xffeff47d, 0x85845dd1,
   0x6fa87e4f, 0xfe2ce6e0, 0xa3014314, 0x4e0811a1,
   0xf7537e82, 0xbd3af235, 0x2ad7d2bb, 0xeb86d391]

/-- The 64 MD5 per-round rotation amounts. -/
def md5S : List Nat :=
  [7, 12, 17, 22, 7, 12, 17, 22, 7, 12, 17, 22, 7, 12, 17, 22,
   5, 9, 14, 20, 5, 9, 14, 20, 5, 9, 14, 20, 5, 9, 14, 20,
   4, 11, 16, 23, 4, 11, 16, 23, 4, 11, 16, 23, 4, 11, 16, 23,
   6, 10, 15, 21, 6, 10, 15, 21, 6, 10, 15, 21, 6, 10, 15, 21]

/-- MD5 internal state: the four 32-bit chaining words. -/
structure MD5State where
  a : Nat
  b : Nat
  c : Nat
  d : Nat
deriving DecidableEq, Repr

/-- MD5 initial chaining state. -/
def md5Init : MD5State := ⟨0x67452301, 0xefcdab89, 0x98badcfe, 0x10325476⟩

/-- One of the 64 MD5 rounds: `blk` is the 64-byte block, `i` the round index. -/
def md5Round (blk : List Nat) (st : MD5State) (i : Nat) : MD5State :=
  let word := fun (g : Nat) =>
    blk.getD (4 * g) 0 + blk.getD (4 * g + 1) 0 * 256 +
    blk.getD (4 * g + 2) 0 * 65536 + blk.getD (4 * g + 3) 0 * 16777216
  let fg :=
    if i < 16 then ((st.b &&& st.c) ||| (not32 st.b &&& st.d), i)
    else if i < 32 then ((st.d &&& st.b) ||| (not32 st.d &&& st.c), (5 * i + 1) % 16)
    else if i < 48 then (st.b ^^^ st.c ^^^ st.d, (3 * i + 5) % 16)
    else (st.c ^^^ (st.b ||| not32 st.d), (7 * i) % 16)
  let tmp := m32 (st.a + fg.1 + md5K.getD i 0 + word fg.2)
  ⟨st.d, m32 (st.b + rotl32 tmp (md5S.getD i 0)), st.b, st.c⟩

/-- Process one padded 64-byte block. -/
def md5Block (st : MD5State) (blk : List Nat) : MD5State :=
  let r := (List.range 64).foldl (md5Round blk) st
  ⟨m32 (st.a + r.a), m32 (st.b + r.b), m32 (st.c + r.c), m32 (st.d + r.d)⟩

/-- MD5 padding: append `0x80`, zero bytes up to 56 mod 64, then the
64-bit little-endian bit length of the original message. -/
def md5Pad (msg : List Nat) : List Nat :=
  let len := msg.length
  let zeros := (120 - (len + 1) % 64) % 64
  let bitLen := len * 8
  msg ++ [0x80] ++ List.replicate zeros 0 ++
    [bitLen % 256, bitLen / 256 % 256, bitLen / 65536 % 256,
     bitLen / 16777216 % 256, bitLen / 4294967296 % 256,
     bitLen / 1099511627776 % 256, bitLen / 281474976710656 % 256,
     bitLen / 72057594037927936 % 256]

/-- Absorb one byte into the (buffer, state) accumulator, processing a
block whenever the buffer reaches 64 bytes. -/
def md5Absorb (acc : List Nat × MD5State) (byt : Nat) : List Nat × MD5State :=
  let buf := acc.1 ++ [byt]
  if buf.length = 64 then ([], md5Block acc.2 buf) else (buf, acc.2)

/-- MD5 of a byte list: chaining state after padding and absorbing all blocks.
The padded message length is a multiple of 64, so the final buffer is empty. -/
def md5Bytes (msg : List Nat) : MD5State :=
  ((md5Pad msg).foldl md5Absorb ([], md5Init)).2

/-- Lowercase hex digit for a nibble. -/
def hexDigit (n : Nat) : Char :=
  if n < 10 then Char.ofNat (48 + n) else Char.ofNat (87 + n)

/-- Two lowercase hex digits of a byte. -/
def byteHex (b : Nat) : List Char := [hexDigit (b / 16 % 16), hexDigit (b % 16)]

/-- Little-endian bytes of a 32-bit word. -/
def leBytes (w : Nat) : List Nat :=
  [w % 256, w / 256 % 256, w / 65536 % 256, w / 16777216 % 256]

/-- The digest `hashlib.md5(...).hexdigest()`: 32 lowercase hex characters. -/
def md5Hex (msg : List Nat) : String :=
  String.mk (((leBytes (md5Bytes msg).a ++ leBytes (md5Bytes msg).b ++
               leBytes (md5Bytes msg).c ++ leBytes (md5Bytes msg).d).map byteHex).flatten)

/-! ## UTF-8 encoding (`str.encode('utf-8')`) -/

/-- UTF-8 bytes of a single character (by scalar value). -/
def charUtf8 (c : Char) : List Nat :=
  let n := c.toNat
  if n < 128 then [n]
  else if n < 2048 then [192 + n / 64, 128 + n % 64]
  else if n < 65536 then [224 + n / 4096, 128 + n / 64 % 64, 128 + n % 64]
  else [240 + n / 262144, 128 + n / 4096 % 64, 128 + n / 64 % 64, 128 + n % 64]

/-- UTF-8 byte encoding of a string, as Python's `s.encode('utf-8')`. -/
def utf8Bytes (s : String) : List Nat := (s.data.map charUtf8).flatten

/-- The digest `hashlib.md5(s.encode('utf-8')).hexdigest()` for a string `s`. -/
def md5HexStr (s : String) : String := md5Hex (utf8Bytes s)

/-! ## Metadata dictionaries

Python dictionaries with string keys and string values, embedded as
insertion-ordered association lists. The engine only ever compares
metadata values for equality and serializes them, so string values
suffice for every reachable input of the claims.
-/

/-- A metadata dictionary: insertion-ordered association list. -/
abbrev Meta := List (String × String)

/-- Python dict assignment `d[k] = v`: replace the value in place if the
key is present (keeping its position), otherwise append at the end. -/
def metaSet : Meta → String → String → Meta
  | [], k, v => [(k, v)]
  | p :: ps, k, v => if p.1 = k then (k, v) :: ps else p :: metaSet ps k v

/-! ## Canonical JSON (`json.dumps(metadata, sort_keys=True)`) -/

/-- The `json.dumps` escaping of one character (`ensure_ascii=True` default):
printable ASCII passes through, `"` `\` and controls get short escapes, and
everything else becomes `\uXXXX` (with surrogate pairs above U+FFFF). -/
def jsonEscapeChar (c : Char) : List Char :=
  let n := c.toNat
  if c = '"' then ['\\', '"']
  else if c = '\\' then ['\\', '\\']
  else if c = '\n' then ['\\', 'n']
  else if c = '\t' then ['\\', 't']
  else if c = '\r' then ['\\', 'r']
  else if n = 8 then ['\\', 'b']
  else if n = 12 then ['\\', 'f']
  else if 32 ≤ n ∧ n ≤ 126 then [c]
  else if n < 65536 then
    ['\\', 'u', hexDigit (n / 4096 % 16), hexDigit (n / 256 % 16),
     hexDigit (n / 16 % 16), hexDigit (n % 16)]
  else
    let m := n - 65536
    let hi := 55296 + m / 1024
    let lo := 56320 + m % 1024
    ['\\', 'u', hexDigit (hi / 4096 % 16), hexDigit (hi / 256 % 16),
     hexDigit (hi / 16 % 16), hexDigit (hi % 16),
     '\\', 'u', hexDigit (lo / 4096 % 16), hexDigit (lo / 256 % 16),
     hexDigit (lo / 16 % 16), hexDigit (lo % 16)]

/-- JSON string literal for `s` (quoted, escaped). -/
def jsonString (s : String) : String :=
  "\"" ++ String.mk ((s.data.map jsonEscapeChar).flatten) ++ "\""

/-- Key order used by `sort_keys=True`: compare the keys. -/
def keyLe (p q : String × String) : Prop := p.1 ≤ q.1

instance : DecidableRel keyLe := fun p q => inferInstanceAs (Decidable (p.1 ≤ q.1))

instance : IsTotal (String × String) keyLe := ⟨fun p q => le_total p.1 q.1⟩

instance : IsTrans (String × String) keyLe := ⟨fun _ _ _ h h' => le_trans h h'⟩

/-- The serialization `json.dumps(d, sort_keys=True)` for a string-valued dictionary:
keys sorted, `", "` item separator, `": "` key separator. -/
def canonicalJson (m : Meta) : String :=
  "\x7b" ++ String.intercalate ", "
    ((List.insertionSort keyLe m).map (fun p => jsonString p.1 ++ ": " ++ jsonString p.2)) ++
    "\x7d"

/-! ## `models.py`: `Chunk` and `Chunk.generate_id` -/

/-- A stored chunk: id + text + embedding + metadata (`models.Chunk`).
The mock embeddings `[0.1] * 3` are represented with exact rationals. -/
structure Chunk where
  id : String
  text : String
  embedding : List Rat
  metadata : Meta
deriving DecidableEq, Repr

/-- The id function `Chunk.generate_id(text, metadata=None, include_metadata=False, salt="")`:
MD5 hex digest of `text`, plus `"|" + salt` when `salt` is truthy, plus
`"|" + json.dumps(metadata, sort_keys=True)` when `include_metadata` is
true and `metadata` is truthy (not `None` and non-empty). -/
def Chunk.generate_id (text : String) (metadata : Option Meta)
    ( include_metadata : Bool) (salt : String) : String :=
  let c1 := if salt = "" then text else text ++ "|" ++ salt
  let c2 :=
    match metadata with
    | some m => if include_metadata ∧ m ≠ [] then c1 ++ "|" ++ canonicalJson m else c1
    | none => c1
  md5HexStr c2

/-! ## Storage backend (`mongo_sink.py` semantics, in memory)

The store is the ordered list of documents in the collection. The engine
issues the backend calls recorded by `SinkCall`.
-/

/-- The collection contents, in insertion order. -/
abbrev Store := List Chunk

/-- A storage-backend call issued by the engine. -/
inductive SinkCall where
  | getFileInfo (filename : String)
  | deleteChunks (filename : String)
  | ingestChunks (chunks : List Chunk)
  | updateChunkMetadata (id : String) (metadata : Meta)
deriving DecidableEq, Repr

/-- The write `UpdateOne` by id with `upsert=True`: replace the first
document with this id, or append the document if no id matches. -/
def upsertDoc : Store → Chunk → Store
  | [], c => [c]
  | d :: ds, c => if d.id = c.id then c :: ds else d :: upsertDoc ds c

/-- The backend call `ingest_chunks`: upsert each chunk by id, in order. -/
def ingestChunks (s : Store) (cs : List Chunk) : Store := cs.foldl upsertDoc s

/-- Does the Mongo filter `{"metadata.filename": f}` match this chunk? -/
def matchesFile (f : String) (c : Chunk) : Bool := c.metadata.lookup "filename" == some f

/-- The backend call `delete_chunks` with the filename filter: `delete_many`. -/
def deleteChunks (s : Store) (f : String) : Store := s.filter (fun c => !(matchesFile f c))

/-- The backend call `get_file_info`: metadata of the first chunk whose `metadata.filename`
equals `f`, or `None`. -/
def getFileInfo (s : Store) (f : String) : Option Meta :=
  (s.find? (matchesFile f)).map Chunk.metadata

/-! ## `kb_manager.py`: the reconciliation engine -/

/-- The file system: a partial map from paths to byte contents.
`os.path.exists(p)` is `(fs p).isSome`. -/
abbrev FileSystem := String → Option (List Nat)

/-- A log level of the `logging` module calls present in the source. -/
inductive LogLevel where
  | info
  | warning
deriving DecidableEq, Repr

/-- The fingerprint `_calculate_file_hash(file_path)`, together with the log records the
function emits (it contains no logging call, so that list is empty).
When the path exists the source streams the file through `hash_md5.update`
in 4096-byte slices; incrementally hashing consecutive slices produces
exactly the MD5 of the whole content, embedded here directly.
When the path does not exist it silently returns the MD5 of the path
string itself. -/
def calculate_file_hash (fs : FileSystem) (file_path : String) :
    String × List (LogLevel × String) :=
  match fs file_path with
  | none => (md5HexStr file_path, [])
  | some bytes => (md5Hex bytes, [])

/-- The function `os.path.basename`: the part after the last `/`. -/
def basename (p : String) : String :=
  String.mk ((p.data.reverse.takeWhile (fun c => c != '/')).reverse)

/-- The mock extractor `_mock_extract_and_chunk(file_path)`. -/
def mock_extract_and_chunk (file_path : String) : List String :=
  ["Content of " ++ basename file_path ++ " chunk 1",
   "Content of " ++ basename file_path ++ " chunk 2"]

/-- The exact rational `0.1` (in lowest terms, so that equality of
embeddings is computable). -/
def ratTenth : Rat := Rat.mk' 1 10 (by decide) (by decide)

/-- The mock embedding `[0.1] * 3`. -/
def mockEmbedding : List Rat := [ratTenth, ratTenth, ratTenth]

/-- The chunk records `_handle_new_file` builds for a file: stable ids from
text salted with `metadata["filename"]`, metadata copied with
`file_hash` set. -/
def newFileChunks (file_path : String) (metadata : Meta) (file_hash : String) : List Chunk :=
  let updated_metadata := metaSet metadata "file_hash" file_hash
  (mock_extract_and_chunk file_path).map (fun text =>
    { id := Chunk.generate_id text none false ((metadata.lookup "filename").getD ""),
      text := text,
      embedding := mockEmbedding,
      metadata := updated_metadata })

/-- The handler `_handle_new_file`: build the chunk records and ingest them. -/
def handle_new_file (file_path : String) (metadata : Meta) (file_hash : String)
    (s : Store) : Store × List SinkCall :=
  let final_chunks := newFileChunks file_path metadata file_hash
  (ingestChunks s final_chunks, [SinkCall.ingestChunks final_chunks])

/-- The operation `delete_file(filename)`: delete every chunk of the filename. -/
def delete_file (s : Store) (filename : String) : Store × List SinkCall :=
  (deleteChunks s filename, [SinkCall.deleteChunks filename])

/-- The handler `_handle_content_update`: delete the old chunks, then ingest as new. -/
def handle_content_update (file_path : String) (metadata : Meta) (file_hash : String)
    (s : Store) : Store × List SinkCall :=
  let d := delete_file s ((metadata.lookup "filename").getD "")
  let n := handle_new_file file_path metadata file_hash d.1
  (n.1, d.2 ++ n.2)

/-- The handler `_handle_metadata_update`: re-issue full ingest (upsert on stable ids)
from the path `f"mock_path/{filename}"`. -/
def handle_metadata_update (filename : String) (new_metadata : Meta) (file_hash : String)
    (s : Store) : Store × List SinkCall :=
  handle_new_file ("mock_path/" ++ filename) new_metadata file_hash s

/-- The predicate `_metadata_changed(old_meta, new_meta)`: some key of the new metadata
other than `file_hash` maps to a different value in the old metadata
(`dict.get` returning `None` for a missing key is never equal to a
string value). -/
def metadata_changed (old_meta new_meta : Meta) : Bool :=
  new_meta.any (fun p => p.1 != "file_hash" && old_meta.lookup p.1 != some p.2)

/-- Result of one `process_file` call: the raised error if any, the trace
of backend calls issued, and the resulting store. -/
structure ProcResult where
  error : Option String
  calls : List SinkCall
  store : Store
deriving DecidableEq, Repr

/-- The entry point `KnowledgeBaseManager.process_file(file_path, metadata)`. -/
def process_file (fs : FileSystem) (file_path : String) (metadata : Meta)
    (s : Store) : ProcResult :=
  match metadata.lookup "filename" with
  | none => ⟨some "Metadata must contain 'filename'", [], s⟩
  | some filename =>
    if filename = "" then ⟨some "Metadata must contain 'filename'", [], s⟩
    else
      let current_hash := (calculate_file_hash fs file_path).1
      match getFileInfo s filename with
      | none =>
        let r := handle_new_file file_path metadata current_hash s
        ⟨none, SinkCall.getFileInfo filename :: r.2, r.1⟩
      | some existing_info =>
        let stored_hash := (existing_info.lookup "file_hash").getD ""
        if stored_hash = "" then
          let r := handle_content_update file_path metadata current_hash s
          ⟨none, SinkCall.getFileInfo filename :: r.2, r.1⟩
        else if stored_hash ≠ current_hash then
          let r := handle_content_update file_path metadata current_hash s
          ⟨none, SinkCall.getFileInfo filename :: r.2, r.1⟩
        else if metadata_changed existing_info metadata then
          let r := handle_metadata_update filename metadata current_hash s
          ⟨none, SinkCall.getFileInfo filename :: r.2, r.1⟩
        else ⟨none, [SinkCall.getFileInfo filename], s⟩

/-! ## Spec-side classification (for the refinement claim C2)

These definitions follow the specification's words for the decision
procedure, to be compared with `process_file` above (which is translated
from the source). -/

/-- The five actions of the spec's classification table. -/
inductive FileAction where
  | fullIngest
  | reingest
  | metadataOnly
  | noAction
deriving DecidableEq, Repr

/-- The spec's classification: NEW when nothing is stored; LEGACY (forced
re-ingest) when the stored metadata has no `file_hash` key; re-ingest when
the stored hash differs; metadata-only update when hashes are equal but a
non-`file_hash` key differs; otherwise no action. -/
def spec_classify (existing : Option Meta) (current_hash : String)
    (new_metadata : Meta) : FileAction :=
  match existing with
  | none => FileAction.fullIngest
  | some em =>
    if em.lookup "file_hash" = none then FileAction.reingest
    else if em.lookup "file_hash" ≠ some current_hash then FileAction.reingest
    else if metadata_changed em new_metadata then FileAction.metadataOnly
    else FileAction.noAction

/-- The spec's decision procedure: validate, fingerprint, look up, then
dispatch the single action `spec_classify` selects. -/
def spec_process_file (fs : FileSystem) (file_path : String) (metadata : Meta)
    (s : Store) : ProcResult :=
  match metadata.lookup "filename" with
  | none => ⟨some "Metadata must contain 'filename'", [], s⟩
  | some filename =>
    if filename = "" then ⟨some "Metadata must contain 'filename'", [], s⟩
    else
      let current_hash := (calculate_file_hash fs file_path).1
      match spec_classify (getFileInfo s filename) current_hash metadata with
      | FileAction.fullIngest =>
        let r := handle_new_file file_path metadata current_hash s
        ⟨none, SinkCall.getFileInfo filename :: r.2, r.1⟩
      | FileAction.reingest =>
        let r := handle_content_update file_path metadata current_hash s
        ⟨none, SinkCall.getFileInfo filename :: r.2, r.1⟩
      | FileAction.metadataOnly =>
        let r := handle_metadata_update filename metadata current_hash s
        ⟨none, SinkCall.getFileInfo filename :: r.2, r.1⟩
      | FileAction.noAction => ⟨none, [SinkCall.getFileInfo filename], s⟩

/-! ## Concrete inputs used by witnesses and counterexamples -/

/-- A file system with no readable file (every path is missing). -/
def emptyFS : FileSystem := fun _ => none

/-! ## Helper lemmas -/

/-- An MD5 hex digest has exactly 32 characters. -/
lemma md5Hex_length (msg : List Nat) : (md5Hex msg).length = 32 := by
  simp [md5Hex, leBytes, byteHex, String.length]

/-- An MD5 hex digest of a string has exactly 32 characters. -/
lemma md5HexStr_length (s : String) : (md5HexStr s).length = 32 :=
  md5Hex_length _

/-- An MD5 hex digest is never the empty string. -/
lemma md5Hex_ne_empty (msg : List Nat) : md5Hex msg ≠ "" := by
  simp [md5Hex, leBytes, byteHex, String.ext_iff]

/-- The content fingerprint is never the empty string. -/
lemma calculate_file_hash_ne_empty (fs : FileSystem) (p : String) :
    (calculate_file_hash fs p).1 ≠ "" := by
  unfold calculate_file_hash
  cases fs p with
  | none => exact md5Hex_ne_empty _
  | some bytes => exact md5Hex_ne_empty _

instance : IsAntisymm (String × String) (fun p q => p.1 < q.1) :=
  ⟨fun _ _ h1 h2 => absurd (h1.trans h2) (lt_irrefl _)⟩

/-- Two key-sorted association lists with the same (duplicate-free) entries
are equal. -/
lemma sorted_key_eq {l₁ l₂ : Meta} (hp : l₁.Perm l₂)
    (hn : (l₁.map Prod.fst).Nodup)
    (hs₁ : l₁.Sorted keyLe) (hs₂ : l₂.Sorted keyLe) : l₁ = l₂ := by
  have hpw₁ : l₁.Pairwise (fun p q : String × String => p.1 ≠ q.1) :=
    (List.pairwise_map.mp hn)
  have hpw₂ : l₂.Pairwise (fun p q : String × String => p.1 ≠ q.1) :=
    (List.pairwise_map.mp ((hp.map Prod.fst).nodup_iff.mp hn))
  have hlt₁ : l₁.Sorted (fun p q : String × String => p.1 < q.1) :=
    (hs₁.and hpw₁).imp (fun h => lt_of_le_of_ne h.1 h.2)
  have hlt₂ : l₂.Sorted (fun p q : String × String => p.1 < q.1) :=
    (hs₂.and hpw₂).imp (fun h => lt_of_le_of_ne h.1 h.2)
  exact List.eq_of_perm_of_sorted hp hlt₁ hlt₂

/-- Sorting by key maps permuted duplicate-free dictionaries to the same
list. -/
lemma insertionSort_key_perm_eq {m1 m2 : Meta}
    (hn : (m1.map Prod.fst).Nodup) (hp : m1.Perm m2) :
    List.insertionSort keyLe m1 = List.insertionSort keyLe m2 := by
  apply sorted_key_eq
  · exact ((List.perm_insertionSort keyLe m1).trans hp).trans
      (List.perm_insertionSort keyLe m2).symm
  · exact (((List.perm_insertionSort keyLe m1).map Prod.fst).nodup_iff).mpr hn
  · exact List.sorted_insertionSort keyLe m1
  · exact List.sorted_insertionSort keyLe m2

/-- The key just set is looked up to the new value. -/
lemma lookup_metaSet_self (m : Meta) (k v : String) :
    (metaSet m k v).lookup k = some v := by
  induction m with
  | nil => simp [metaSet, List.lookup]
  | cons p ps ih =>
    by_cases h : p.1 = k
    · simp [metaSet, h, List.lookup]
    · have hb : (k == p.1) = false := beq_eq_false_iff_ne.mpr (Ne.symm h)
      simp [metaSet, h, List.lookup, hb, ih]

/-- Setting one key leaves the lookup of any other key unchanged. -/
lemma lookup_metaSet_other (m : Meta) (k v k' : String) (h : k' ≠ k) :
    (metaSet m k v).lookup k' = m.lookup k' := by
  induction m with
  | nil =>
    have hb : (k' == k) = false := beq_eq_false_iff_ne.mpr h
    simp [metaSet, List.lookup, hb]
  | cons p ps ih =>
    by_cases hp : p.1 = k
    · subst hp
      have hb : (k' == p.1) = false := beq_eq_false_iff_ne.mpr h
      simp [metaSet, List.lookup, hb]
    · cases hb : (k' == p.1) <;> simp [metaSet, hp, List.lookup, hb, ih]

/-- A chunk in an upserted store was there before or is the new document. -/
lemma mem_upsertDoc {c d : Chunk} : ∀ {s : Store}, c ∈ upsertDoc s d → c ∈ s ∨ c = d := by
  intro s
  induction s with
  | nil => simp [upsertDoc]
  | cons e es ih =>
    intro h
    by_cases he : e.id = d.id
    · simp [upsertDoc, he] at h
      rcases h with h | h
      · exact Or.inr h
      · exact Or.inl (List.mem_cons_of_mem _ h)
    · simp [upsertDoc, he] at h
      rcases h with h | h
      · exact Or.inl (h ▸ List.mem_cons_self _ _)
      · rcases ih h with h' | h'
        · exact Or.inl (List.mem_cons_of_mem _ h')
        · exact Or.inr h'

/-- The upserted document is in the resulting store. -/
lemma self_mem_upsertDoc (s : Store) (d : Chunk) : d ∈ upsertDoc s d := by
  induction s with
  | nil => simp [upsertDoc]
  | cons e es ih =>
    by_cases he : e.id = d.id
    · simp [upsertDoc, he]
    · simp [upsertDoc, he]
      exact Or.inr ih

/-- A chunk in an ingested store was there before or is one of the
ingested chunks. -/
lemma mem_ingestChunks {c : Chunk} :
    ∀ {cs : List Chunk} {s : Store}, c ∈ ingestChunks s cs → c ∈ s ∨ c ∈ cs := by
  intro cs
  induction cs with
  | nil => intro s h; exact Or.inl h
  | cons d ds ih =>
    intro s h
    have h' : c ∈ ingestChunks (upsertDoc s d) ds := h
    rcases ih h' with h'' | h''
    · rcases mem_upsertDoc h'' with h3 | h3
      · exact Or.inl h3
      · exact Or.inr (h3 ▸ List.mem_cons_self _ _)
    · exact Or.inr (List.mem_cons_of_mem _ h'')

/-! ## Claims about `Chunk.generate_id` -/

/-- C3: `generate_id` is deterministic and canonical: the id is the
fixed-length (32 hex characters) MD5 digest of `text`, then `"|" + salt`
when the salt is non-empty, then `"|" + canonical_json(metadata)` when
metadata is included; and because the canonical JSON sorts keys, two
metadata dictionaries with the same key-value pairs in any insertion
order produce the same id. -/
theorem generate_id_canonical (text salt : String) (m1 m2 : Meta)
    (hn : (m1.map Prod.fst).Nodup) (hp : m1.Perm m2) :
    Chunk.generate_id text (some m1) true salt = Chunk.generate_id text (some m2) true salt ∧
    (Chunk.generate_id text (some m1) true salt).length = 32 ∧
    (m1 ≠ [] →
      Chunk.generate_id text (some m1) true salt =
        md5HexStr (text ++ (if salt = "" then "" else "|" ++ salt) ++ "|" ++ canonicalJson m1)) ∧
    Chunk.generate_id text none false salt =
      md5HexStr (text ++ (if salt = "" then "" else "|" ++ salt)) := by
  have hjson : canonicalJson m1 = canonicalJson m2 := by
    unfold canonicalJson
    rw [insertionSort_key_perm_eq hn hp]
  have hm2nil : m1 = [] ↔ m2 = [] := by
    constructor
    · intro h; subst h; exact hp.symm.eq_nil
    · intro h; subst h; exact hp.eq_nil
  refine ⟨?_, ?_, ?_, ?_⟩
  · by_cases h1 : m1 = []
    · have h2 : m2 = [] := hm2nil.mp h1
      simp [Chunk.generate_id, h1, h2]
    · have h2 : m2 ≠ [] := fun h => h1 (hm2nil.mpr h)
      simp [Chunk.generate_id, h1, h2, hjson]
  · exact md5HexStr_length _
  · intro h1
    by_cases hs : salt = "" <;> simp [Chunk.generate_id, h1, hs, String.append_assoc]
  · by_cases hs : salt = "" <;> simp [Chunk.generate_id, hs, String.append_assoc]

/-- Witness for C3 at concrete inputs: key insertion order is irrelevant. -/
theorem generate_id_canonical_witness :
    (([("a", "1"), ("b", "2")] : Meta).map Prod.fst).Nodup ∧
    List.Perm ([("a", "1"), ("b", "2")] : Meta) [("b", "2"), ("a", "1")] ∧
    (Chunk.generate_id "text" (some [("a", "1"), ("b", "2")]) true "s.pdf" =
      Chunk.generate_id "text" (some [("b", "2"), ("a", "1")]) true "s.pdf" ∧
    (Chunk.generate_id "text" (some [("a", "1"), ("b", "2")]) true "s.pdf").length = 32 ∧
    ([("a", "1"), ("b", "2")] ≠ ([] : Meta) →
      Chunk.generate_id "text" (some [("a", "1"), ("b", "2")]) true "s.pdf" =
        md5HexStr ("text" ++ (if "s.pdf" = "" then "" else "|" ++ "s.pdf") ++ "|" ++
          canonicalJson [("a", "1"), ("b", "2")])) ∧
    Chunk.generate_id "text" none false "s.pdf" =
      md5HexStr ("text" ++ (if "s.pdf" = "" then "" else "|" ++ "s.pdf"))) :=
  ⟨by decide, by decide,
   generate_id_canonical "text" "s.pdf" [("a", "1"), ("b", "2")] [("b", "2"), ("a", "1")]
     (by decide) (by decide)⟩

/-- C9: the `(text, salt)` encoding is not injective: for a non-empty salt
the digest input coincides with that of the longer text `text ++ "|" ++ salt`
under an empty salt, although the two `(text, salt)` pairs are distinct. -/
theorem generate_id_salt_ambiguity (t s : String) (hs : s ≠ "") :
    Chunk.generate_id t none false s =
      Chunk.generate_id (t ++ "|" ++ s) none false "" ∧
    (t, s) ≠ (t ++ "|" ++ s, "") := by
  constructor
  · simp [Chunk.generate_id, hs]
  · intro h
    exact hs (congrArg Prod.snd h)

/-- Witness for C9: a chunk whose text literally ends in `"|a.pdf"` collides
with the salted id of the shorter text in file `a.pdf`. -/
theorem generate_id_salt_ambiguity_witness :
    "a.pdf" ≠ "" ∧
    (Chunk.generate_id "Common Text Paragraph" none false "a.pdf" =
      Chunk.generate_id ("Common Text Paragraph" ++ "|" ++ "a.pdf") none false "" ∧
    ("Common Text Paragraph", "a.pdf") ≠
      ("Common Text Paragraph" ++ "|" ++ "a.pdf", "")) :=
  ⟨by decide, generate_id_salt_ambiguity "Common Text Paragraph" "a.pdf" (by decide)⟩

/-- A one-chunk record as stored by the cross-file collision test: text
salted with the owning filename. -/
def saltedChunk (text filename : String) : Chunk :=
  { id := Chunk.generate_id text none false filename,
    text := text,
    embedding := mockEmbedding,
    metadata := [("filename", filename)] }

/-- C4: every chunk the engine ingests gets id
`generate_id(text, salt=metadata["filename"], include_metadata=False)`, so
the same text `"Common Text Paragraph"` under the two filenames `"a.pdf"`
and `"b.pdf"` receives two distinct ids, and storing both yields two
records rather than one. -/
theorem chunk_ids_salted_by_filename (file_path : String) (metadata : Meta)
    (file_hash : String) (c : Chunk)
    (hc : c ∈ newFileChunks file_path metadata file_hash) :
    c.id = Chunk.generate_id c.text none false ((metadata.lookup "filename").getD "") ∧
    Chunk.generate_id "Common Text Paragraph" none false "a.pdf" ≠
      Chunk.generate_id "Common Text Paragraph" none false "b.pdf" ∧
    (upsertDoc (upsertDoc [] (saltedChunk "Common Text Paragraph" "a.pdf"))
        (saltedChunk "Common Text Paragraph" "b.pdf")).length = 2 := by
  refine ⟨?_, by decide, by decide⟩
  simp only [newFileChunks, List.mem_map] at hc
  obtain ⟨t, _, rfl⟩ := hc
  rfl

/-- The first chunk record built for the file `dir/a.pdf` (witness input). -/
def sampleChunkA : Chunk :=
  { id := Chunk.generate_id "Content of a.pdf chunk 1" none false "a.pdf",
    text := "Content of a.pdf chunk 1",
    embedding := mockEmbedding,
    metadata := [("filename", "a.pdf"), ("file_hash", "h")] }

/-- The second chunk record built for the file `dir/a.pdf` (witness input). -/
def sampleChunkA2 : Chunk :=
  { id := Chunk.generate_id "Content of a.pdf chunk 2" none false "a.pdf",
    text := "Content of a.pdf chunk 2",
    embedding := mockEmbedding,
    metadata := [("filename", "a.pdf"), ("file_hash", "h")] }

/-- The concrete chunk list built for `dir/a.pdf`. -/
lemma newFileChunks_sample :
    newFileChunks "dir/a.pdf" [("filename", "a.pdf")] "h" = [sampleChunkA, sampleChunkA2] := rfl

/-- Witness for C4: the first chunk built for a concrete file carries the
salted id. -/
theorem chunk_ids_salted_by_filename_witness :
    sampleChunkA ∈ newFileChunks "dir/a.pdf" [("filename", "a.pdf")] "h" ∧
    (sampleChunkA.id =
      Chunk.generate_id sampleChunkA.text none false
        ((([("filename", "a.pdf")] : Meta).lookup "filename").getD "") ∧
    Chunk.generate_id "Common Text Paragraph" none false "a.pdf" ≠
      Chunk.generate_id "Common Text Paragraph" none false "b.pdf" ∧
    (upsertDoc (upsertDoc [] (saltedChunk "Common Text Paragraph" "a.pdf"))
        (saltedChunk "Common Text Paragraph" "b.pdf")).length = 2) :=
  ⟨by rw [newFileChunks_sample]; exact List.mem_cons_self _ _,
   chunk_ids_salted_by_filename "dir/a.pdf" [("filename", "a.pdf")] "h" _
     (by rw [newFileChunks_sample]; exact List.mem_cons_self _ _)⟩

/-- C6: a `process_file` call whose metadata has no `filename` entry fails
with the validation error and has no effect: no backend call is issued and
the store is unchanged. -/
theorem process_file_missing_filename (fs : FileSystem) (file_path : String)
    (metadata : Meta) (s : Store) (h : metadata.lookup "filename" = none) :
    process_file fs file_path metadata s =
      ⟨some "Metadata must contain 'filename'", [], s⟩ := by
  unfold process_file
  rw [h]

/-- Witness for C6 at a concrete call. -/
theorem process_file_missing_filename_witness :
    (([("label", "draft")] : Meta).lookup "filename" = none) ∧
    process_file emptyFS "path/to/doc1.pdf" [("label", "draft")] [] =
      ⟨some "Metadata must contain 'filename'", [], []⟩ :=
  ⟨by decide,
   process_file_missing_filename emptyFS "path/to/doc1.pdf" [("label", "draft")] [] (by decide)⟩

/-! ## Shared lemmas about the engine's branches -/

/-- On the unchanged branch (stored hash truthy and equal to the current
fingerprint, no metadata difference) `process_file` is a no-op: one lookup
call, store untouched. -/
lemma process_file_noop_of_unchanged (fs : FileSystem) (file_path : String)
    (metadata : Meta) (s : Store) (f : String) (em : Meta)
    (hf : metadata.lookup "filename" = some f) (hf0 : f ≠ "")
    (hex : getFileInfo s f = some em)
    (hsh0 : (em.lookup "file_hash").getD "" ≠ "")
    (hsh : (em.lookup "file_hash").getD "" = (calculate_file_hash fs file_path).1)
    (hmc : metadata_changed em metadata = false) :
    process_file fs file_path metadata s = ⟨none, [SinkCall.getFileInfo f], s⟩ := by
  simp only [process_file, hf, hex]
  rw [if_neg hf0, if_neg hsh0, if_neg (not_not_intro hsh), if_neg (by simp [hmc])]

/-- On a re-ingest branch (stored hash falsy, or different from the current
fingerprint) `process_file` runs the content-update protocol. -/
lemma process_file_reingest (fs : FileSystem) (file_path : String)
    (metadata : Meta) (s : Store) (f : String) (em : Meta)
    (hf : metadata.lookup "filename" = some f) (hf0 : f ≠ "")
    (hex : getFileInfo s f = some em)
    (hsh : (em.lookup "file_hash").getD "" = "" ∨
           (em.lookup "file_hash").getD "" ≠ (calculate_file_hash fs file_path).1) :
    process_file fs file_path metadata s =
      ⟨none,
       SinkCall.getFileInfo f ::
         (handle_content_update file_path metadata ((calculate_file_hash fs file_path).1) s).2,
       (handle_content_update file_path metadata ((calculate_file_hash fs file_path).1) s).1⟩ := by
  simp only [process_file, hf, hex]
  by_cases h0 : (em.lookup "file_hash").getD "" = ""
  · rw [if_neg hf0, if_pos h0]
  · have hne : (em.lookup "file_hash").getD "" ≠ (calculate_file_hash fs file_path).1 := by
      rcases hsh with h | h
      · exact absurd h h0
      · exact h
    rw [if_neg hf0, if_neg h0, if_pos hne]

/-- The calls of the content-update protocol: delete first, ingest second. -/
lemma handle_content_update_calls (file_path : String) (metadata : Meta)
    (cur f : String) (s : Store) (hf : metadata.lookup "filename" = some f) :
    (handle_content_update file_path metadata cur s).2 =
      [SinkCall.deleteChunks f, SinkCall.ingestChunks (newFileChunks file_path metadata cur)] := by
  simp [handle_content_update, delete_file, handle_new_file, hf]

/-- The store of the content-update protocol. -/
lemma handle_content_update_store (file_path : String) (metadata : Meta)
    (cur f : String) (s : Store) (hf : metadata.lookup "filename" = some f) :
    (handle_content_update file_path metadata cur s).1 =
      ingestChunks (deleteChunks s f) (newFileChunks file_path metadata cur) := by
  simp [handle_content_update, delete_file, handle_new_file, hf]

/-- After the content-update protocol, every chunk of the file carries the
new hash. -/
lemma handle_content_update_hashes (file_path : String) (metadata : Meta)
    (cur f : String) (s : Store) (hf : metadata.lookup "filename" = some f) :
    ∀ c ∈ (handle_content_update file_path metadata cur s).1,
      c.metadata.lookup "filename" = some f →
      c.metadata.lookup "file_hash" = some cur := by
  intro c hc hcf
  rw [handle_content_update_store file_path metadata cur f s hf] at hc
  rcases mem_ingestChunks hc with h | h
  · have := List.of_mem_filter h
    simp [matchesFile, hcf] at this
  · simp only [newFileChunks, List.mem_map] at h
    obtain ⟨t, _, rfl⟩ := h
    exact lookup_metaSet_self _ _ _

/-- After the content-update protocol, `get_file_info` finds a chunk of the
file, and its metadata carries the new hash. -/
lemma getFileInfo_handle_content_update (file_path : String) (metadata : Meta)
    (cur f : String) (s : Store) (hf : metadata.lookup "filename" = some f) :
    ∃ em, getFileInfo (handle_content_update file_path metadata cur s).1 f = some em ∧
      em.lookup "file_hash" = some cur := by
  have hsm : ∃ c ∈ (handle_content_update file_path metadata cur s).1, matchesFile f c = true := by
    rw [handle_content_update_store file_path metadata cur f s hf]
    refine ⟨{ id := Chunk.generate_id ("Content of " ++ basename file_path ++ " chunk 2")
                none false ((metadata.lookup "filename").getD ""),
              text := "Content of " ++ basename file_path ++ " chunk 2",
              embedding := mockEmbedding,
              metadata := metaSet metadata "file_hash" cur }, ?_, ?_⟩
    · exact self_mem_upsertDoc _ _
    · simp [matchesFile, lookup_metaSet_other metadata "file_hash" cur "filename" (by decide), hf]
  obtain ⟨c, hcm, hcp⟩ := hsm
  have hfind : ((handle_content_update file_path metadata cur s).1.find? (matchesFile f)).isSome := by
    rw [List.find?_isSome]
    exact ⟨c, hcm, hcp⟩
  obtain ⟨c', hc'⟩ := Option.isSome_iff_exists.mp hfind
  have hc'mem := List.mem_of_find?_eq_some hc'
  have hc'p := List.find?_some hc'
  have hc'f : c'.metadata.lookup "filename" = some f := by
    simpa [matchesFile] using hc'p
  refine ⟨c'.metadata, ?_, ?_⟩
  · simp [getFileInfo, hc']
  · exact handle_content_update_hashes file_path metadata cur f s hf c' hc'mem hc'f

/-! ## C7: the unchanged branch performs no further backend call -/

/-- C7: when the stored hash is present and equal to the current
fingerprint and no supplied metadata key differs, `process_file` issues no
backend call beyond the lookup — no delete, no ingest, no metadata update —
and leaves the store untouched. -/
theorem unchanged_file_is_noop (fs : FileSystem) (file_path : String)
    (metadata : Meta) (s : Store) (f : String) (em : Meta)
    (hf : metadata.lookup "filename" = some f) (hf0 : f ≠ "")
    (hex : getFileInfo s f = some em)
    (hsh0 : (em.lookup "file_hash").getD "" ≠ "")
    (hsh : (em.lookup "file_hash").getD "" = (calculate_file_hash fs file_path).1)
    (hmc : metadata_changed em metadata = false) :
    (process_file fs file_path metadata s).calls = [SinkCall.getFileInfo f] ∧
    (process_file fs file_path metadata s).store = s ∧
    (process_file fs file_path metadata s).error = none := by
  rw [process_file_noop_of_unchanged fs file_path metadata s f em hf hf0 hex hsh0 hsh hmc]
  exact ⟨rfl, rfl, rfl⟩

/-- A store holding one up-to-date chunk for `doc1.pdf` whose hash is the
fingerprint of the (unreadable) path `path/to/doc1.pdf`. -/
def unchangedStore : Store :=
  [{ id := "c1", text := "t", embedding := mockEmbedding,
     metadata := [("filename", "doc1.pdf"), ("file_hash", md5HexStr "path/to/doc1.pdf"),
                  ("label", "draft")] }]

/-- Witness for C7 at a concrete unchanged reconciliation. -/
theorem unchanged_file_is_noop_witness :
    (([("filename", "doc1.pdf"), ("label", "draft")] : Meta).lookup "filename" =
      some "doc1.pdf") ∧
    (getFileInfo unchangedStore "doc1.pdf" =
      some [("filename", "doc1.pdf"), ("file_hash", md5HexStr "path/to/doc1.pdf"),
            ("label", "draft")]) ∧
    ((process_file emptyFS "path/to/doc1.pdf"
        [("filename", "doc1.pdf"), ("label", "draft")] unchangedStore).calls =
      [SinkCall.getFileInfo "doc1.pdf"] ∧
    (process_file emptyFS "path/to/doc1.pdf"
        [("filename", "doc1.pdf"), ("label", "draft")] unchangedStore).store =
      unchangedStore ∧
    (process_file emptyFS "path/to/doc1.pdf"
        [("filename", "doc1.pdf"), ("label", "draft")] unchangedStore).error = none) :=
  ⟨by decide, by decide,
   unchanged_file_is_noop emptyFS "path/to/doc1.pdf"
     [("filename", "doc1.pdf"), ("label", "draft")] unchangedStore "doc1.pdf"
     [("filename", "doc1.pdf"), ("file_hash", md5HexStr "path/to/doc1.pdf"), ("label", "draft")]
     (by decide) (by decide) (by decide) (by decide) (by decide) (by decide)⟩

/-! ## C10: change detection only inspects supplied keys -/

/-- C10: `_metadata_changed` only inspects keys present in the new
metadata, so a call whose metadata agrees with the stored values on every
supplied non-`file_hash` key is classified UNCHANGED even when the stored
metadata has an extra key `k0` absent from the call, and that stale field
persists in storage. -/
theorem removed_metadata_key_not_detected (fs : FileSystem) (file_path : String)
    (metadata : Meta) (s : Store) (f : String) (em : Meta) (k0 w : String)
    (hf : metadata.lookup "filename" = some f) (hf0 : f ≠ "")
    (hex : getFileInfo s f = some em)
    (hsh0 : (em.lookup "file_hash").getD "" ≠ "")
    (hsh : (em.lookup "file_hash").getD "" = (calculate_file_hash fs file_path).1)
    (hpt : ∀ p ∈ metadata, p.1 ≠ "file_hash" → em.lookup p.1 = some p.2)
    (hk0 : em.lookup k0 = some w) ( _hk0m : metadata.lookup k0 = none) :
    metadata_changed em metadata = false ∧
    process_file fs file_path metadata s = ⟨none, [SinkCall.getFileInfo f], s⟩ ∧
    (getFileInfo (process_file fs file_path metadata s).store f).bind
      (fun m => m.lookup k0) = some w := by
  have hmc : metadata_changed em metadata = false := by
    rw [metadata_changed, List.any_eq_false]
    intro p hp
    by_cases hph : p.1 = "file_hash"
    · simp [hph]
    · simp [hph, hpt p hp hph]
  have hpf := process_file_noop_of_unchanged fs file_path metadata s f em hf hf0 hex hsh0 hsh hmc
  refine ⟨hmc, hpf, ?_⟩
  rw [hpf]
  simp [hex, hk0]

/-- A store for `doc1.pdf` carrying an extra `label` field that the next
call will omit. -/
def labeledStore : Store :=
  [{ id := "c1", text := "t", embedding := mockEmbedding,
     metadata := [("filename", "doc1.pdf"), ("file_hash", md5HexStr "path/to/doc1.pdf"),
                  ("label", "draft")] }]

/-- Witness for C10: dropping `label` from the call is not detected and the
stale value persists. -/
theorem removed_metadata_key_not_detected_witness :
    (([("filename", "doc1.pdf")] : Meta).lookup "label" = none) ∧
    (∀ p ∈ ([("filename", "doc1.pdf")] : Meta), p.1 ≠ "file_hash" →
      ([("filename", "doc1.pdf"), ("file_hash", md5HexStr "path/to/doc1.pdf"),
        ("label", "draft")] : Meta).lookup p.1 = some p.2) ∧
    (metadata_changed
        [("filename", "doc1.pdf"), ("file_hash", md5HexStr "path/to/doc1.pdf"), ("label", "draft")]
        [("filename", "doc1.pdf")] = false ∧
    process_file emptyFS "path/to/doc1.pdf" [("filename", "doc1.pdf")] labeledStore =
      ⟨none, [SinkCall.getFileInfo "doc1.pdf"], labeledStore⟩ ∧
    (getFileInfo
        (process_file emptyFS "path/to/doc1.pdf" [("filename", "doc1.pdf")] labeledStore).store
        "doc1.pdf").bind (fun m => m.lookup "label") = some "draft") :=
  ⟨by decide, by decide,
   removed_metadata_key_not_detected emptyFS "path/to/doc1.pdf" [("filename", "doc1.pdf")]
     labeledStore "doc1.pdf"
     [("filename", "doc1.pdf"), ("file_hash", md5HexStr "path/to/doc1.pdf"), ("label", "draft")]
     "label" "draft"
     (by decide) (by decide) (by decide) (by decide) (by decide) (by decide) (by decide)
     (by decide)⟩

/-! ## C5: re-ingest deletes before ingesting -/

/-- C5: on the LEGACY and CONTENT_CHANGED branches the engine issues the
delete call strictly before the ingest call, and afterwards every stored
chunk of the filename carries the current hash — no stale chunk with an
old hash coexists with the new ones. -/
theorem reingest_deletes_before_ingesting (fs : FileSystem) (file_path : String)
    (metadata : Meta) (s : Store) (f : String) (em : Meta)
    (hf : metadata.lookup "filename" = some f) (hf0 : f ≠ "")
    (hex : getFileInfo s f = some em)
    (hsh : (em.lookup "file_hash").getD "" = "" ∨
           (em.lookup "file_hash").getD "" ≠ (calculate_file_hash fs file_path).1) :
    (process_file fs file_path metadata s).calls =
      [SinkCall.getFileInfo f, SinkCall.deleteChunks f,
       SinkCall.ingestChunks
         (newFileChunks file_path metadata ((calculate_file_hash fs file_path).1))] ∧
    ∀ c ∈ (process_file fs file_path metadata s).store,
      c.metadata.lookup "filename" = some f →
      c.metadata.lookup "file_hash" = some ((calculate_file_hash fs file_path).1) := by
  have hpf := process_file_reingest fs file_path metadata s f em hf hf0 hex hsh
  constructor
  · rw [hpf]
    simp [handle_content_update_calls file_path metadata _ f s hf]
  · intro c hc
    rw [hpf] at hc
    exact handle_content_update_hashes file_path metadata _ f s hf c hc

/-- A store for `doc1.pdf` whose recorded hash differs from the current
fingerprint of `path/to/doc1.pdf`. -/
def staleStore : Store :=
  [{ id := "c1", text := "t", embedding := mockEmbedding,
     metadata := [("filename", "doc1.pdf"), ("file_hash", "oldhash")] }]

/-- Witness for C5 at a concrete content change. -/
theorem reingest_deletes_before_ingesting_witness :
    ((([("filename", "doc1.pdf"), ("file_hash", "oldhash")] : Meta).lookup "file_hash").getD ""
        = "" ∨
      (([("filename", "doc1.pdf"), ("file_hash", "oldhash")] : Meta).lookup "file_hash").getD ""
        ≠ (calculate_file_hash emptyFS "path/to/doc1.pdf").1) ∧
    ((process_file emptyFS "path/to/doc1.pdf"
        [("filename", "doc1.pdf"), ("file_hash", "oldhash")] staleStore).calls =
      [SinkCall.getFileInfo "doc1.pdf", SinkCall.deleteChunks "doc1.pdf",
       SinkCall.ingestChunks
         (newFileChunks "path/to/doc1.pdf" [("filename", "doc1.pdf"), ("file_hash", "oldhash")]
           ((calculate_file_hash emptyFS "path/to/doc1.pdf").1))] ∧
    ∀ c ∈ (process_file emptyFS "path/to/doc1.pdf"
        [("filename", "doc1.pdf"), ("file_hash", "oldhash")] staleStore).store,
      c.metadata.lookup "filename" = some "doc1.pdf" →
      c.metadata.lookup "file_hash" =
        some ((calculate_file_hash emptyFS "path/to/doc1.pdf").1)) :=
  ⟨by right; decide,
   reingest_deletes_before_ingesting emptyFS "path/to/doc1.pdf"
     [("filename", "doc1.pdf"), ("file_hash", "oldhash")] staleStore "doc1.pdf"
     [("filename", "doc1.pdf"), ("file_hash", "oldhash")]
     (by decide) (by decide) (by decide) (by right; decide)⟩

/-! ## C2: the decision procedure matches the spec's classification -/

/-- C2: `process_file` evaluates the spec's classification in its fixed
order and takes exactly the selected action (so CONTENT_CHANGED and
METADATA_CHANGED are mutually exclusive by construction), and on the
LEGACY branch — a stored record with no `file_hash` key — it forcibly
re-ingests so that `file_hash` is present in the stored metadata
afterward. -/
theorem process_file_follows_spec_decision (fs : FileSystem) (file_path : String)
    (metadata : Meta) (s : Store) :
    process_file fs file_path metadata s = spec_process_file fs file_path metadata s ∧
    (∀ f em, metadata.lookup "filename" = some f → f ≠ "" →
      getFileInfo s f = some em → em.lookup "file_hash" = none →
      (getFileInfo (process_file fs file_path metadata s).store f).bind
        (fun m => m.lookup "file_hash") =
        some ((calculate_file_hash fs file_path).1)) := by
  constructor
  · cases hfn : metadata.lookup "filename" with
    | none => simp [process_file, spec_process_file, hfn]
    | some f =>
      by_cases hf0 : f = ""
      · simp [process_file, spec_process_file, hfn, hf0]
      · cases hex : getFileInfo s f with
        | none => simp [process_file, spec_process_file, spec_classify, hfn, hf0, hex]
        | some em =>
          cases hls : em.lookup "file_hash" with
          | none =>
            simp [process_file, spec_process_file, spec_classify, hfn, hf0, hex, hls]
          | some hv =>
            have hcur := calculate_file_hash_ne_empty fs file_path
            by_cases hv0 : hv = ""
            · have hvne : hv ≠ (calculate_file_hash fs file_path).1 := by
                rw [hv0]; exact fun h => hcur h.symm
              simp [process_file, spec_process_file, spec_classify, hfn, hf0, hex, hls,
                hv0, hvne, Ne.symm hcur]
            · by_cases hvc : hv = (calculate_file_hash fs file_path).1
              · cases hmc : metadata_changed em metadata <;>
                  simp [process_file, spec_process_file, spec_classify, hfn, hf0, hex, hls,
                    hv0, hvc, hcur, hmc]
              · simp [process_file, spec_process_file, spec_classify, hfn, hf0, hex, hls,
                  hv0, hvc]
  · intro f em hfn hf0 hex hnone
    have hpf := process_file_reingest fs file_path metadata s f em hfn hf0 hex
      (Or.inl (by simp [hnone]))
    rw [hpf]
    obtain ⟨em', h1, h2⟩ :=
      getFileInfo_handle_content_update file_path metadata
        ((calculate_file_hash fs file_path).1) f s hfn
    simp [h1, h2]

/-- A legacy store for `doc1.pdf`: a chunk with no `file_hash` field. -/
def legacyStore : Store :=
  [{ id := "c1", text := "t", embedding := mockEmbedding,
     metadata := [("filename", "doc1.pdf")] }]

/-- Witness for C2: a legacy record is forcibly re-ingested and gains a
`file_hash`. -/
theorem process_file_follows_spec_decision_witness :
    (([("filename", "doc1.pdf")] : Meta).lookup "filename" = some "doc1.pdf") ∧
    (([("filename", "doc1.pdf")] : Meta).lookup "file_hash" = none) ∧
    (getFileInfo (process_file emptyFS "path/to/doc1.pdf"
        [("filename", "doc1.pdf")] legacyStore).store "doc1.pdf").bind
      (fun m => m.lookup "file_hash") =
      some ((calculate_file_hash emptyFS "path/to/doc1.pdf").1) :=
  ⟨by decide, by decide,
   (process_file_follows_spec_decision emptyFS "path/to/doc1.pdf"
       [("filename", "doc1.pdf")] legacyStore).2
     "doc1.pdf" [("filename", "doc1.pdf")] (by decide) (by decide) (by decide) (by decide)⟩

/-! ## C8: the degraded hash fallback -/

/-- Counterexample to C8 as stated: for an unreadable path the engine does
fall back to hashing the path string, but `_calculate_file_hash` emits no
log record at all — in particular no warning-level signal — so the
degraded mode is indistinguishable from a normal content hash. -/
theorem degraded_hash_fallback_silent_cex :
    (emptyFS "path/to/doc1.pdf").isSome = false ∧
    (calculate_file_hash emptyFS "path/to/doc1.pdf").1 = md5HexStr "path/to/doc1.pdf" ∧
    ¬ ∃ e ∈ (calculate_file_hash emptyFS "path/to/doc1.pdf").2, e.1 = LogLevel.warning := by
  refine ⟨rfl, rfl, ?_⟩
  simp [calculate_file_hash, emptyFS]

/-- C8 amended: the fingerprint is the stable MD5 digest of the file's
bytes, and for an unreadable path it silently falls back to the digest of
the path string — with no log record emitted. -/
theorem calculate_file_hash_stable_with_silent_fallback (fs : FileSystem) (p : String) :
    (∀ bytes, fs p = some bytes → calculate_file_hash fs p = (md5Hex bytes, [])) ∧
    (fs p = none → calculate_file_hash fs p = (md5HexStr p, [])) := by
  constructor
  · intro bytes h
    simp [calculate_file_hash, h]
  · intro h
    simp [calculate_file_hash, h]

/-- A file system holding exactly one small readable file. -/
def oneFileFS : FileSystem := fun p => if p = "data/doc1.pdf" then some [1, 2, 3] else none

/-- Witness for the amended C8: both the readable and the unreadable case
at concrete inputs. -/
theorem calculate_file_hash_stable_with_silent_fallback_witness :
    (oneFileFS "data/doc1.pdf" = some [1, 2, 3] ∧
      calculate_file_hash oneFileFS "data/doc1.pdf" = (md5Hex [1, 2, 3], [])) ∧
    (emptyFS "path/to/doc1.pdf" = none ∧
      calculate_file_hash emptyFS "path/to/doc1.pdf" = (md5HexStr "path/to/doc1.pdf", [])) :=
  ⟨⟨rfl, (calculate_file_hash_stable_with_silent_fallback oneFileFS "data/doc1.pdf").1
      [1, 2, 3] rfl⟩,
   ⟨rfl, (calculate_file_hash_stable_with_silent_fallback emptyFS "path/to/doc1.pdf").2 rfl⟩⟩

/-! ## C1: the metadata-only update path -/

/-- First reconciliation of the C1 counterexample: the file is ingested
from `path/to/other.pdf` under the logical filename `doc1.pdf`. -/
def cexStore1 : Store :=
  (process_file emptyFS "path/to/other.pdf"
    [("filename", "doc1.pdf"), ("label", "draft")] []).store

/-- Second reconciliation of the C1 counterexample: same path (so the
fingerprint is unchanged), only `label` changed. -/
def cexResult2 : ProcResult :=
  process_file emptyFS "path/to/other.pdf"
    [("filename", "doc1.pdf"), ("label", "final")] cexStore1

/-- Counterexample to C1 as stated: the metadata-only path re-ingests from
`mock_path/doc1.pdf`, not from the original `path/to/other.pdf`, so when
the original path's basename differs from the filename the regenerated ids
are new: the store grows from 2 to 4 chunks, a chunk id exists that was
not in the original set, and `get_file_info` still reports the old label. -/
theorem metadata_update_new_ids_cex :
    basename "path/to/other.pdf" ≠ "doc1.pdf" ∧
    cexStore1.length = 2 ∧
    cexResult2.store.length = 4 ∧
    (∃ i ∈ cexResult2.store.map Chunk.id, i ∉ cexStore1.map Chunk.id) ∧
    (getFileInfo cexResult2.store "doc1.pdf").bind (fun m => m.lookup "label") =
      some "draft" := by
  refine ⟨by decide, by decide, by decide, by decide, by decide⟩

/-- The call metadata of the C1 scenario: filename `doc1.pdf`, label `v`. -/
def labeledMeta (v : String) : Meta := [("filename", "doc1.pdf"), ("label", v)]

/-- The two chunk records of `doc1.pdf` with label `v` and hash `h`. -/
def doc1Chunks (v h : String) : List Chunk :=
  [{ id := Chunk.generate_id "Content of doc1.pdf chunk 1" none false "doc1.pdf",
     text := "Content of doc1.pdf chunk 1", embedding := mockEmbedding,
     metadata := [("filename", "doc1.pdf"), ("label", v), ("file_hash", h)] },
   { id := Chunk.generate_id "Content of doc1.pdf chunk 2" none false "doc1.pdf",
     text := "Content of doc1.pdf chunk 2", embedding := mockEmbedding,
     metadata := [("filename", "doc1.pdf"), ("label", v), ("file_hash", h)] }]

/-- On the NEW branch (nothing stored for the filename) `process_file`
runs the full-ingest protocol. -/
lemma process_file_new (fs : FileSystem) (file_path : String) (metadata : Meta)
    (s : Store) (f : String)
    (hf : metadata.lookup "filename" = some f) (hf0 : f ≠ "")
    (hex : getFileInfo s f = none) :
    process_file fs file_path metadata s =
      ⟨none,
       SinkCall.getFileInfo f ::
         (handle_new_file file_path metadata ((calculate_file_hash fs file_path).1) s).2,
       (handle_new_file file_path metadata ((calculate_file_hash fs file_path).1) s).1⟩ := by
  simp only [process_file, hf, hex]
  rw [if_neg hf0]

/-- On the metadata-changed branch (stored hash truthy and equal to the
current fingerprint, some supplied key different) `process_file` runs the
metadata-update protocol. -/
lemma process_file_metadata_update (fs : FileSystem) (file_path : String)
    (metadata : Meta) (s : Store) (f : String) (em : Meta)
    (hf : metadata.lookup "filename" = some f) (hf0 : f ≠ "")
    (hex : getFileInfo s f = some em)
    (hsh0 : (em.lookup "file_hash").getD "" ≠ "")
    (hsh : (em.lookup "file_hash").getD "" = (calculate_file_hash fs file_path).1)
    (hmc : metadata_changed em metadata = true) :
    process_file fs file_path metadata s =
      ⟨none,
       SinkCall.getFileInfo f ::
         (handle_metadata_update f metadata ((calculate_file_hash fs file_path).1) s).2,
       (handle_metadata_update f metadata ((calculate_file_hash fs file_path).1) s).1⟩ := by
  simp only [process_file, hf, hex]
  rw [if_neg hf0, if_neg hsh0, if_neg (not_not_intro hsh), if_pos hmc]

/-- C1 amended: when the ingested path's basename equals the logical
filename (here `path/to/doc1.pdf` and `doc1.pdf`), reconciling again with
the same fingerprint and one changed non-`file_hash` field takes the
metadata-only path: it re-issues a full ingest (no delete call) whose
upserts regenerate exactly the original chunk ids, the stored metadata
then reports the new label with `file_hash` still the current
fingerprint, and every embedding value is unchanged. -/
theorem metadata_only_update_preserves_ids (fs : FileSystem) (v1 v2 : String)
    (hv : v1 ≠ v2) :
    (process_file fs "path/to/doc1.pdf" (labeledMeta v2)
        (process_file fs "path/to/doc1.pdf" (labeledMeta v1) []).store).store.map Chunk.id =
      (process_file fs "path/to/doc1.pdf" (labeledMeta v1) []).store.map Chunk.id ∧
    (process_file fs "path/to/doc1.pdf" (labeledMeta v2)
        (process_file fs "path/to/doc1.pdf" (labeledMeta v1) []).store).store.map
        Chunk.embedding =
      (process_file fs "path/to/doc1.pdf" (labeledMeta v1) []).store.map Chunk.embedding ∧
    (getFileInfo (process_file fs "path/to/doc1.pdf" (labeledMeta v2)
        (process_file fs "path/to/doc1.pdf" (labeledMeta v1) []).store).store
        "doc1.pdf").bind (fun m => m.lookup "label") = some v2 ∧
    (getFileInfo (process_file fs "path/to/doc1.pdf" (labeledMeta v2)
        (process_file fs "path/to/doc1.pdf" (labeledMeta v1) []).store).store
        "doc1.pdf").bind (fun m => m.lookup "file_hash") =
      some ((calculate_file_hash fs "path/to/doc1.pdf").1) ∧
    (process_file fs "path/to/doc1.pdf" (labeledMeta v2)
        (process_file fs "path/to/doc1.pdf" (labeledMeta v1) []).store).calls =
      [SinkCall.getFileInfo "doc1.pdf",
       SinkCall.ingestChunks
         (doc1Chunks v2 ((calculate_file_hash fs "path/to/doc1.pdf").1))] := by
  have h1 : process_file fs "path/to/doc1.pdf" (labeledMeta v1) [] =
      ⟨none,
       [SinkCall.getFileInfo "doc1.pdf",
        SinkCall.ingestChunks (doc1Chunks v1 ((calculate_file_hash fs "path/to/doc1.pdf").1))],
       doc1Chunks v1 ((calculate_file_hash fs "path/to/doc1.pdf").1)⟩ := by
    rw [process_file_new fs "path/to/doc1.pdf" (labeledMeta v1) [] "doc1.pdf" rfl
      (by decide) rfl]
    have hnc : newFileChunks "path/to/doc1.pdf" (labeledMeta v1)
        ((calculate_file_hash fs "path/to/doc1.pdf").1) =
        doc1Chunks v1 ((calculate_file_hash fs "path/to/doc1.pdf").1) := rfl
    have hic : ingestChunks []
        (doc1Chunks v1 ((calculate_file_hash fs "path/to/doc1.pdf").1)) =
        doc1Chunks v1 ((calculate_file_hash fs "path/to/doc1.pdf").1) := rfl
    simp only [handle_new_file, hnc, hic]
  have hmc : metadata_changed
      [("filename", "doc1.pdf"), ("label", v1),
       ("file_hash", (calculate_file_hash fs "path/to/doc1.pdf").1)]
      (labeledMeta v2) = true := by
    simp [metadata_changed, labeledMeta, List.lookup, hv]
  have h2 : process_file fs "path/to/doc1.pdf" (labeledMeta v2)
      (doc1Chunks v1 ((calculate_file_hash fs "path/to/doc1.pdf").1)) =
      ⟨none,
       SinkCall.getFileInfo "doc1.pdf" ::
         (handle_metadata_update "doc1.pdf" (labeledMeta v2)
           ((calculate_file_hash fs "path/to/doc1.pdf").1)
           (doc1Chunks v1 ((calculate_file_hash fs "path/to/doc1.pdf").1))).2,
       (handle_metadata_update "doc1.pdf" (labeledMeta v2)
         ((calculate_file_hash fs "path/to/doc1.pdf").1)
         (doc1Chunks v1 ((calculate_file_hash fs "path/to/doc1.pdf").1))).1⟩ :=
    process_file_metadata_update fs "path/to/doc1.pdf" (labeledMeta v2)
      (doc1Chunks v1 ((calculate_file_hash fs "path/to/doc1.pdf").1)) "doc1.pdf"
      [("filename", "doc1.pdf"), ("label", v1),
       ("file_hash", (calculate_file_hash fs "path/to/doc1.pdf").1)]
      rfl (by decide) rfl
      (calculate_file_hash_ne_empty fs "path/to/doc1.pdf") rfl hmc
  have hnc2 : newFileChunks ("mock_path/" ++ "doc1.pdf") (labeledMeta v2)
      ((calculate_file_hash fs "path/to/doc1.pdf").1) =
      doc1Chunks v2 ((calculate_file_hash fs "path/to/doc1.pdf").1) := rfl
  have hic2 : ingestChunks (doc1Chunks v1 ((calculate_file_hash fs "path/to/doc1.pdf").1))
      (doc1Chunks v2 ((calculate_file_hash fs "path/to/doc1.pdf").1)) =
      doc1Chunks v2 ((calculate_file_hash fs "path/to/doc1.pdf").1) := rfl
  have hst : (handle_metadata_update "doc1.pdf" (labeledMeta v2)
      ((calculate_file_hash fs "path/to/doc1.pdf").1)
      (doc1Chunks v1 ((calculate_file_hash fs "path/to/doc1.pdf").1))).1 =
      doc1Chunks v2 ((calculate_file_hash fs "path/to/doc1.pdf").1) := by
    simp only [handle_metadata_update, handle_new_file, hnc2, hic2]
  have hca : (handle_metadata_update "doc1.pdf" (labeledMeta v2)
      ((calculate_file_hash fs "path/to/doc1.pdf").1)
      (doc1Chunks v1 ((calculate_file_hash fs "path/to/doc1.pdf").1))).2 =
      [SinkCall.ingestChunks
         (doc1Chunks v2 ((calculate_file_hash fs "path/to/doc1.pdf").1))] := by
    simp only [handle_metadata_update, handle_new_file, hnc2]
  rw [h1]
  rw [h2, hst, hca]
  refine ⟨rfl, rfl, rfl, rfl, rfl⟩

/-- Witness for the amended C1 at `draft` to `final`. -/
theorem metadata_only_update_preserves_ids_witness :
    "draft" ≠ "final" ∧
    ((process_file emptyFS "path/to/doc1.pdf" (labeledMeta "final")
        (process_file emptyFS "path/to/doc1.pdf" (labeledMeta "draft") []).store).store.map
        Chunk.id =
      (process_file emptyFS "path/to/doc1.pdf" (labeledMeta "draft") []).store.map Chunk.id ∧
    (process_file emptyFS "path/to/doc1.pdf" (labeledMeta "final")
        (process_file emptyFS "path/to/doc1.pdf" (labeledMeta "draft") []).store).store.map
        Chunk.embedding =
      (process_file emptyFS "path/to/doc1.pdf" (labeledMeta "draft") []).store.map
        Chunk.embedding ∧
    (getFileInfo (process_file emptyFS "path/to/doc1.pdf" (labeledMeta "final")
        (process_file emptyFS "path/to/doc1.pdf" (labeledMeta "draft") []).store).store
        "doc1.pdf").bind (fun m => m.lookup "label") = some "final" ∧
    (getFileInfo (process_file emptyFS "path/to/doc1.pdf" (labeledMeta "final")
        (process_file emptyFS "path/to/doc1.pdf" (labeledMeta "draft") []).store).store
        "doc1.pdf").bind (fun m => m.lookup "file_hash") =
      some ((calculate_file_hash emptyFS "path/to/doc1.pdf").1) ∧
    (process_file emptyFS "path/to/doc1.pdf" (labeledMeta "final")
        (process_file emptyFS "path/to/doc1.pdf" (labeledMeta "draft") []).store).calls =
      [SinkCall.getFileInfo "doc1.pdf",
       SinkCall.ingestChunks
         (doc1Chunks "final" ((calculate_file_hash emptyFS "path/to/doc1.pdf").1))]) :=
  ⟨by decide, metadata_only_update_preserves_ids emptyFS "draft" "final" (by decide)⟩
